import Mathlib

/-!
Verification of the variant-store support scripts of the hellbender repository.

Each Python function relevant to the verified properties is shallowly embedded
as an executable Lean definition.  Python integers become `Int`/`Nat`, Python
floor division `//` becomes `Int.fdiv`, fallible code (functions that can raise
`ValueError` / `IndexError` / call `sys.exit`) returns `Except`/`Option`.
-/

/-! ## create_ranges_cohort_extract_data_table.py : sample partitioning -/

/-- Constant `SAMPLES_PER_PARTITION = 4000` from
create_ranges_cohort_extract_data_table.py. -/
def SAMPLES_PER_PARTITION : Int := 4000

/-- The dict `{'start': ..., 'end': ...}` returned by `get_partition_range`. -/
structure PartitionRange where
  start : Int
  stop : Int
deriving Repr, DecidableEq

/-- `get_partition_range(i)`: raises `ValueError` when `i < 1` or
`i > REF_VET_TABLE_COUNT`, otherwise returns
`{'start': (i - 1) * SAMPLES_PER_PARTITION + 1, 'end': i * SAMPLES_PER_PARTITION}`.
The global `REF_VET_TABLE_COUNT` is passed as an explicit first argument. -/
def get_partition_range (REF_VET_TABLE_COUNT : Int) (i : Int) :
    Except String PartitionRange :=
  if i < 1 ∨ i > REF_VET_TABLE_COUNT then
    Except.error "out of partition range"
  else
    Except.ok ⟨(i - 1) * SAMPLES_PER_PARTITION + 1, i * SAMPLES_PER_PARTITION⟩

/-- `get_samples_for_partition(sample_ids, i)`:
`[s for s in sample_ids if get_partition_range(i)['start'] <= s <= get_partition_range(i)['end']]`.
The comprehension evaluates `get_partition_range(i)` only when `sample_ids` is
non-empty, so an empty list returns `[]` even for an out-of-range `i`. -/
def get_samples_for_partition (REF_VET_TABLE_COUNT : Int) (sample_ids : List Int)
    (i : Int) : Except String (List Int) :=
  if sample_ids.isEmpty then Except.ok []
  else
    match get_partition_range REF_VET_TABLE_COUNT i with
    | Except.error e => Except.error e
    | Except.ok r => Except.ok (sample_ids.filter fun s => r.start ≤ s && s ≤ r.stop)

/-- `split_lists(samples, n)`:
`[samples[i * n:(i + 1) * n] for i in range((len(samples) + n - 1) // n)]`.
The slice `samples[i*n:(i+1)*n]` is `(samples.drop (i*n)).take n`. -/
def split_lists {α : Type} (samples : List α) (n : Nat) : List (List α) :=
  (List.range ((samples.length + n - 1) / n)).map fun i => (samples.drop (i * n)).take n

/-! ### Helper lemmas about `split_lists` -/

theorem split_lists_nil {α : Type} (n : Nat) : split_lists ([] : List α) n = [] := by
  have h : (n - 1) / n = 0 := by
    match n with
    | 0 => rfl
    | Nat.succ m => exact Nat.div_eq_of_lt (by omega)
  simp [split_lists, h]

theorem split_lists_cons {α : Type} (samples : List α) (n : Nat) (hn : 1 ≤ n)
    (hs : samples ≠ []) :
    split_lists samples n = samples.take n :: split_lists (samples.drop n) n := by
  have hlen : 1 ≤ samples.length := List.length_pos.2 hs
  have hcount : (samples.length + n - 1) / n
      = ((samples.drop n).length + n - 1) / n + 1 := by
    rw [List.length_drop]
    have e2 : samples.length + n - 1 = (samples.length - 1) + n := by omega
    rcases le_or_lt samples.length n with h | h
    · have e1 : samples.length - n + n - 1 = n - 1 := by omega
      have e3 : (samples.length - 1) / n = 0 := Nat.div_eq_of_lt (by omega)
      have e4 : (n - 1) / n = 0 := Nat.div_eq_of_lt (by omega)
      rw [e1, e2, Nat.add_div_right _ (by omega), e3, e4]
    · have e1 : samples.length - n + n - 1 = samples.length - 1 := by omega
      rw [e1, e2, Nat.add_div_right _ (by omega)]
  unfold split_lists
  rw [hcount, List.range_succ_eq_map, List.map_cons, List.map_map]
  congr 1
  · simp
  · apply List.map_congr_left
    intro i _
    simp only [Function.comp, Nat.succ_eq_add_one]
    rw [List.drop_drop]
    congr 1
    rw [Nat.add_mul, Nat.one_mul, Nat.add_comm]

theorem split_lists_flatten {α : Type} (samples : List α) (n : Nat) (hn : 1 ≤ n) :
    (split_lists samples n).flatten = samples := by
  suffices H : ∀ (L : Nat) (s : List α), s.length ≤ L → (split_lists s n).flatten = s by
    exact H samples.length samples le_rfl
  intro L
  induction L with
  | zero =>
    intro s h
    have hs : s = [] := List.length_eq_zero.1 (Nat.le_zero.1 h)
    rw [hs, split_lists_nil]
    rfl
  | succ L ih =>
    intro s h
    rcases eq_or_ne s [] with hs | hs
    · rw [hs, split_lists_nil]; rfl
    · rw [split_lists_cons s n hn hs, List.flatten_cons,
        ih (s.drop n) (by rw [List.length_drop]; omega)]
      exact List.take_append_drop n s

theorem split_lists_count_pos_of_mem {α : Type} {samples : List α} {n : Nat}
    {c : List α} (hn : 1 ≤ n) (hc : c ∈ split_lists samples n) :
    ∃ i, i < (samples.length + n - 1) / n ∧ c = (samples.drop (i * n)).take n ∧
      i * n < samples.length := by
  rcases List.mem_map.1 hc with ⟨i, hi, rfl⟩
  rw [List.mem_range] at hi
  refine ⟨i, hi, rfl, ?_⟩
  have h1 : (i + 1) * n ≤ ((samples.length + n - 1) / n) * n :=
    Nat.mul_le_mul_right _ hi
  have h2 : ((samples.length + n - 1) / n) * n ≤ samples.length + n - 1 :=
    Nat.div_mul_le_self _ _
  have h3 : 1 ≤ samples.length := by
    by_contra hL
    have hL0 : samples.length = 0 := by omega
    have : (samples.length + n - 1) / n = 0 := by
      rw [hL0]; exact Nat.div_eq_of_lt (by omega)
    omega
  have h4 : (i + 1) * n = i * n + n := by ring
  omega

theorem split_lists_chunk_bounds {α : Type} {samples : List α} {n : Nat}
    (hn : 1 ≤ n) : ∀ c ∈ split_lists samples n, 1 ≤ c.length ∧ c.length ≤ n := by
  intro c hc
  rcases split_lists_count_pos_of_mem hn hc with ⟨i, _, rfl, hlt⟩
  rw [List.length_take, List.length_drop]
  omega

/-- C2: `split_lists(samples, n)` splits `samples` into `ceil(len(samples)/n)`
chunks whose concatenation is `samples`; every chunk has length in `[1, n]`,
every chunk except possibly the last has length exactly `n`, the result is `[]`
for empty input, and in particular every chunk produced with `n = 1000` (as in
`populate_final_extract_table_with_ref`/`_vet`) has at most 1000 samples. -/
theorem split_lists_spec {α : Type} (samples : List α) (n : Nat) (hn : 1 ≤ n) :
    (split_lists samples n).length = (samples.length + n - 1) / n
    ∧ (split_lists samples n).flatten = samples
    ∧ (∀ c ∈ split_lists samples n, 1 ≤ c.length ∧ c.length ≤ n)
    ∧ (∀ (i : Nat) (h : i + 1 < (split_lists samples n).length),
        ((split_lists samples n).get ⟨i, Nat.lt_of_succ_lt h⟩).length = n)
    ∧ (samples = [] → split_lists samples n = [])
    ∧ (∀ c ∈ split_lists samples 1000, c.length ≤ 1000) := by
  refine ⟨?_, split_lists_flatten samples n hn, split_lists_chunk_bounds hn, ?_, ?_, ?_⟩
  · simp [split_lists]
  · intro i h
    have hcount : (split_lists samples n).length = (samples.length + n - 1) / n := by
      simp [split_lists]
    have hget : (split_lists samples n).get ⟨i, Nat.lt_of_succ_lt h⟩
        = (samples.drop (i * n)).take n := by
      simp [split_lists]
    rw [hget, List.length_take, List.length_drop]
    rw [hcount] at h
    have h1 : (i + 2) * n ≤ ((samples.length + n - 1) / n) * n :=
      Nat.mul_le_mul_right _ h
    have h2 : ((samples.length + n - 1) / n) * n ≤ samples.length + n - 1 :=
      Nat.div_mul_le_self _ _
    have h3 : 1 ≤ samples.length := by
      by_contra hL
      have hL0 : samples.length = 0 := by omega
      have : (samples.length + n - 1) / n = 0 := by
        rw [hL0]; exact Nat.div_eq_of_lt (by omega)
      omega
    have h4 : (i + 2) * n = i * n + n + n := by ring
    omega
  · intro hs; rw [hs]; exact split_lists_nil n
  · intro c hc
    exact (split_lists_chunk_bounds (by norm_num) c hc).2

/-- Witness for `split_lists_spec` at `samples = [1,...,7]`, `n = 3`. -/
theorem split_lists_spec_witness :
    (split_lists [1, 2, 3, 4, 5, 6, 7] 3).flatten = [1, 2, 3, 4, 5, 6, 7] :=
  (split_lists_spec [1, 2, 3, 4, 5, 6, 7] 3 (by decide)).2.1

/-- C1: for `1 ≤ i ≤ REF_VET_TABLE_COUNT`, `get_partition_range(i)` returns
`{'start': (i-1)*SAMPLES_PER_PARTITION + 1, 'end': i*SAMPLES_PER_PARTITION}`;
a sample id `s` lies in that range iff `((s-1) // SAMPLES_PER_PARTITION) + 1 = i`;
`get_samples_for_partition(sample_ids, i)` returns exactly the elements of
`sample_ids` whose partition number under that formula is `i`, in order; and
`get_partition_range(j)` raises `ValueError` exactly when `j < 1` or
`j > REF_VET_TABLE_COUNT`. -/
theorem partition_range_spec (count i : Int) (h1 : 1 ≤ i) (h2 : i ≤ count) :
    get_partition_range count i
      = Except.ok ⟨(i - 1) * SAMPLES_PER_PARTITION + 1, i * SAMPLES_PER_PARTITION⟩
    ∧ (∀ s : Int,
        ((i - 1) * SAMPLES_PER_PARTITION + 1 ≤ s ∧ s ≤ i * SAMPLES_PER_PARTITION)
        ↔ (s - 1).fdiv SAMPLES_PER_PARTITION + 1 = i)
    ∧ (∀ sample_ids : List Int,
        get_samples_for_partition count sample_ids i
          = Except.ok (sample_ids.filter
              fun s => (s - 1).fdiv SAMPLES_PER_PARTITION + 1 == i))
    ∧ (∀ j : Int, (∃ e, get_partition_range count j = Except.error e)
        ↔ (j < 1 ∨ j > count)) := by
  have hnot : ¬ (i < 1 ∨ i > count) := by omega
  have hrange : get_partition_range count i
      = Except.ok ⟨(i - 1) * SAMPLES_PER_PARTITION + 1, i * SAMPLES_PER_PARTITION⟩ := by
    simp [get_partition_range, hnot]
  have hc : (0 : Int) < 4000 := by norm_num
  have hiff : ∀ s : Int,
      ((i - 1) * SAMPLES_PER_PARTITION + 1 ≤ s ∧ s ≤ i * SAMPLES_PER_PARTITION)
      ↔ (s - 1).fdiv SAMPLES_PER_PARTITION + 1 = i := by
    intro s
    show ((i - 1) * 4000 + 1 ≤ s ∧ s ≤ i * 4000) ↔ (s - 1).fdiv 4000 + 1 = i
    rw [Int.fdiv_eq_ediv _ (by norm_num)]
    constructor
    · rintro ⟨hl, hr⟩
      have h3 := (Int.le_ediv_iff_mul_le hc).2 (show (i - 1) * 4000 ≤ s - 1 by omega)
      have h4 := (Int.ediv_lt_iff_lt_mul hc).2 (show s - 1 < i * 4000 by omega)
      omega
    · intro h
      have h5 : i - 1 ≤ (s - 1) / 4000 := by omega
      have h6 : (s - 1) / 4000 < i := by omega
      have h7 := (Int.le_ediv_iff_mul_le hc).1 h5
      have h8 := (Int.ediv_lt_iff_lt_mul hc).1 h6
      omega
  refine ⟨hrange, hiff, ?_, ?_⟩
  · intro sample_ids
    unfold get_samples_for_partition
    rw [hrange]
    rcases sample_ids with _ | ⟨a, rest⟩
    · simp
    · simp only [List.isEmpty_cons, Bool.false_eq_true, if_false]
      congr 1
      apply List.filter_congr
      intro s _
      have := hiff s
      rw [Bool.eq_iff_iff]
      simp only [Bool.and_eq_true, decide_eq_true_eq, beq_iff_eq]
      exact this
  · intro j
    by_cases hj : j < 1 ∨ j > count
    · simp [get_partition_range, hj]
    · simp [get_partition_range, hj]

/-- Witness for `partition_range_spec` at `count = 250`, `i = 2`. -/
theorem partition_range_spec_witness :
    get_samples_for_partition 250 [1, 4000, 4001, 8000, 8001] 2
      = Except.ok [4001, 8000] := by
  rw [(partition_range_spec 250 2 (by decide) (by decide)).2.2.1
    [1, 4000, 4001, 8000, 8001]]
  rfl

/-! ## Decimal-numeral toolkit

Python's `str(n)` for a nonnegative integer is the standard decimal numeral,
which is exactly Lean's `Nat.repr`.  The lemmas below connect `Nat.repr`
(defined in core via `Nat.toDigitsCore`) with Mathlib's `Nat.digits`, in order
to reason about the zero-padded decimal concatenation performed by
`get_location_filters_from_interval_list`. -/

theorem string_mk_append (a b : List Char) :
    String.mk a ++ String.mk b = String.mk (a ++ b) := rfl

theorem toDigitsCore_eq :
    ∀ (n fuel : Nat) (acc : List Char), 0 < n → n < fuel →
      Nat.toDigitsCore 10 fuel n acc
        = ((Nat.digits 10 n).map Nat.digitChar).reverse ++ acc := by
  intro n
  induction n using Nat.strong_induction_on with
  | _ n ih =>
    intro fuel acc hn hfuel
    obtain ⟨f, rfl⟩ : ∃ f, fuel = f + 1 := ⟨fuel - 1, by omega⟩
    by_cases hq : n / 10 = 0
    · simp only [Nat.toDigitsCore, hq, if_true]
      rw [Nat.digits_def' (by norm_num : (1 : Nat) < 10) hn, hq, Nat.digits_zero]
      simp
    · simp only [Nat.toDigitsCore, hq, if_false]
      rw [ih (n / 10) (Nat.div_lt_self hn (by norm_num)) f _
        (Nat.pos_of_ne_zero hq) (by omega)]
      rw [Nat.digits_def' (by norm_num : (1 : Nat) < 10) hn]
      simp

theorem repr_eq_of_pos (n : Nat) (hn : 0 < n) :
    Nat.repr n = String.mk (((Nat.digits 10 n).map Nat.digitChar).reverse) := by
  show (Nat.toDigits 10 n).asString = _
  unfold Nat.toDigits
  rw [toDigitsCore_eq n (n + 1) [] hn (by omega)]
  simp [List.asString]

theorem repr_length_of_pos (n : Nat) (hn : 0 < n) :
    (Nat.repr n).length = (Nat.digits 10 n).length := by
  rw [repr_eq_of_pos n hn]
  show (((Nat.digits 10 n).map Nat.digitChar).reverse).length = _
  simp

/-- Concatenating the numeral of `c`, `k - len(str(s))` zero characters and the
numeral of `s` yields the numeral of `c * 10 ^ k + s` (for `0 < c`, `0 < k`,
`s < 10 ^ k`).  This is the exact string arithmetic performed by the Python
f-string `f"{code}{'0' * (12 - len(str(pos)))}{pos}"`. -/
theorem repr_pad (c k s : Nat) (hc : 0 < c) (hk : 0 < k) (hs : s < 10 ^ k) :
    Nat.repr c ++ String.mk (List.replicate (k - (Nat.repr s).length) '0')
        ++ Nat.repr s
      = Nat.repr (c * 10 ^ k + s) := by
  rcases Nat.eq_zero_or_pos s with rfl | hspos
  · have hmul : c * 10 ^ k + 0 = 10 ^ k * c := by ring
    have hlen : (Nat.repr 0).length = 1 := rfl
    have h0 : Nat.repr 0 = String.mk ['0'] := rfl
    rw [hmul, hlen, h0, repr_eq_of_pos _ (Nat.mul_pos (Nat.pow_pos (by norm_num)) hc),
      Nat.digits_base_pow_mul (by norm_num) hc, repr_eq_of_pos c hc,
      string_mk_append, string_mk_append]
    congr 1
    simp only [List.map_append, List.reverse_append, List.map_replicate,
      List.reverse_replicate]
    rw [List.append_assoc, ← List.replicate_succ' (n := k - 1)]
    have : k - 1 + 1 = k := by omega
    rw [this]
    rfl
  · have hlen : (Nat.repr s).length = (Nat.digits 10 s).length :=
      repr_length_of_pos s hspos
    have hdlen : (Nat.digits 10 s).length ≤ k := by
      rw [Nat.digits_len 10 s (by norm_num) (by omega)]
      have := Nat.log_lt_of_lt_pow (x := k) (by omega : s ≠ 0) hs
      omega
    have key := Nat.digits_append_zeroes_append_digits
      (b := 10) (k := k - (Nat.digits 10 s).length) (m := c) (n := s)
      (by norm_num) hc
    have hexp : (Nat.digits 10 s).length + (k - (Nat.digits 10 s).length) = k := by
      omega
    rw [hexp] at key
    have hmul : c * 10 ^ k + s = s + 10 ^ k * c := by ring
    have hpos : 0 < s + 10 ^ k * c := by
      have := Nat.mul_pos (Nat.pow_pos (show 0 < 10 by norm_num) (n := k)) hc
      omega
    rw [hmul, repr_eq_of_pos _ hpos, ← key, hlen, repr_eq_of_pos c hc,
      repr_eq_of_pos s hspos, string_mk_append, string_mk_append]
    congr 1
    simp [List.map_append, List.reverse_append, List.map_replicate,
      List.reverse_replicate, List.append_assoc, Nat.digitChar]

theorem lookup_mem_of_eq_some {α β : Type} [BEq α] [LawfulBEq α]
    {l : List (α × β)} {k : α} {v : β} (h : l.lookup k = some v) : (k, v) ∈ l := by
  induction l with
  | nil => simp [List.lookup] at h
  | cons p rest ih =>
    rcases p with ⟨a, b⟩
    by_cases hk : k = a
    · subst hk
      simp [List.lookup] at h
      simp [h]
    · have hbeq : (k == a) = false := beq_eq_false_iff_ne.2 hk
      simp only [List.lookup, hbeq] at h
      exact List.mem_cons_of_mem _ (ih h)

theorem mapM_eq_map_of_forall {α β : Type} (f : α → Option β) (g : α → β)
    (l : List α) (h : ∀ x ∈ l, f x = some (g x)) : l.mapM f = some (l.map g) := by
  induction l with
  | nil => rfl
  | cons a rest ih =>
    rw [List.map_cons, List.mapM_cons, h a (by simp),
      ih (fun x hx => h x (by simp [hx]))]
    rfl

/-! ## create_ranges_cohort_extract_data_table.py : location filters -/

/-- `CHROM_MAP` exactly as written in the source (note the `'chr5': '6'` entry). -/
def CHROM_MAP : List (String × String) :=
  [("chr1", "1"), ("chr2", "2"), ("chr3", "3"), ("chr4", "4"), ("chr5", "6"),
   ("chr6", "6"), ("chr7", "7"), ("chr8", "8"), ("chr9", "9"), ("chr10", "10"),
   ("chr11", "11"), ("chr12", "12"), ("chr13", "13"), ("chr14", "14"),
   ("chr15", "15"), ("chr16", "16"), ("chr17", "17"), ("chr18", "18"),
   ("chr19", "19"), ("chr20", "20"), ("chr21", "21"), ("chr22", "22"),
   ("chrX", "23"), ("chrY", "24"), ("chrM", "25")]

/-- A `pybedtools` interval as consumed by
`get_location_filters_from_interval_list`: a chromosome name and integer
`start`/`end` coordinates (`stop` models `interval.end`). -/
structure GenInterval where
  chrom : String
  start : Nat
  stop : Nat
deriving Repr, DecidableEq

/-- The location clause built for one interval:
`f"(location >= {CHROM_MAP[chrom]}{'0' * (12 - len(str(start)))}{start} \n            AND location <= {CHROM_MAP[chrom]}{'0' * (12 - len(str(end)))}{end})"`.
Returns `none` when the chromosome is not in `CHROM_MAP` (Python `KeyError`). -/
def location_clause (iv : GenInterval) : Option String :=
  (CHROM_MAP.lookup iv.chrom).map fun code =>
    "(location >= " ++ code
      ++ String.mk (List.replicate (12 - (Nat.repr iv.start).length) '0')
      ++ Nat.repr iv.start
      ++ " \n            AND location <= " ++ code
      ++ String.mk (List.replicate (12 - (Nat.repr iv.stop).length) '0')
      ++ Nat.repr iv.stop ++ ")"

/-- `get_location_filters_from_interval_list(interval_list)`: returns `""` when
there are more than 5000 intervals, otherwise
`"WHERE (" + " OR ".join(location_clause_list) + ")"`. -/
def get_location_filters_from_interval_list (interval_list : List GenInterval) :
    Option String :=
  if interval_list.length > 5000 then some ""
  else
    (interval_list.mapM location_clause).map fun cls =>
      "WHERE (" ++ String.intercalate " OR " cls ++ ")"

/-- The numeric reading of the `CHROM_MAP` codes (as in the source, both
`chr5` and `chr6` carry code 6). -/
def CHROM_CODES : List (String × Nat) :=
  [("chr1", 1), ("chr2", 2), ("chr3", 3), ("chr4", 4), ("chr5", 6),
   ("chr6", 6), ("chr7", 7), ("chr8", 8), ("chr9", 9), ("chr10", 10),
   ("chr11", 11), ("chr12", 12), ("chr13", 13), ("chr14", 14),
   ("chr15", 15), ("chr16", 16), ("chr17", 17), ("chr18", 18),
   ("chr19", 19), ("chr20", 20), ("chr21", 21), ("chr22", 22),
   ("chrX", 23), ("chrY", 24), ("chrM", 25)]

/-- The numeric code of a mapped chromosome. -/
def chromCode (ch : String) : Nat := (CHROM_CODES.lookup ch).getD 0

theorem chrom_map_repr :
    ∀ p ∈ CHROM_MAP, p.2 = Nat.repr (chromCode p.1) ∧ 0 < chromCode p.1 := by
  decide

/-- The location-range condition for one interval as the specification states
it: a condition bounding `location` between `code * 10^12 + start` and
`code * 10^12 + end`. -/
def spec_location_clause (iv : GenInterval) : String :=
  "(location >= " ++ Nat.repr (chromCode iv.chrom * 10 ^ 12 + iv.start)
    ++ " \n            AND location <= "
    ++ Nat.repr (chromCode iv.chrom * 10 ^ 12 + iv.stop) ++ ")"

/-- C6: `get_location_filters_from_interval_list` returns `""` for more than
5000 intervals (so the INSERT queries carry no location restriction), and for a
non-empty list of at most 5000 intervals (on mapped chromosomes, with
coordinates below `10^12`) it returns a WHERE clause that is the disjunction of
exactly one location-range condition per interval, each bounding `location`
between `code * 10^12 + start` and `code * 10^12 + end`. -/
theorem location_filters_spec (ivs : List GenInterval)
    (hmapped : ∀ iv ∈ ivs, (CHROM_MAP.lookup iv.chrom).isSome = true)
    (hbound : ∀ iv ∈ ivs, iv.start < 10 ^ 12 ∧ iv.stop < 10 ^ 12) :
    (ivs.length > 5000 → get_location_filters_from_interval_list ivs = some "")
    ∧ (ivs ≠ [] → ivs.length ≤ 5000 →
        get_location_filters_from_interval_list ivs
          = some ("WHERE (" ++ String.intercalate " OR "
              (ivs.map spec_location_clause) ++ ")")) := by
  constructor
  · intro h
    simp [get_location_filters_from_interval_list, h]
  · intro _ hle
    have hmap : ivs.mapM location_clause = some (ivs.map spec_location_clause) := by
      apply mapM_eq_map_of_forall
      intro iv hiv
      obtain ⟨code, hcode⟩ := Option.isSome_iff_exists.1 (hmapped iv hiv)
      have hmem := lookup_mem_of_eq_some hcode
      have hrep := chrom_map_repr _ hmem
      have hcodeval : code = Nat.repr (chromCode iv.chrom) := hrep.1
      have hcodepos : 0 < chromCode iv.chrom := hrep.2
      unfold location_clause spec_location_clause
      rw [hcode]
      simp only [Option.map_some']
      congr 1
      rw [hcodeval,
        ← repr_pad (chromCode iv.chrom) 12 iv.start hcodepos (by norm_num)
          (hbound iv hiv).1,
        ← repr_pad (chromCode iv.chrom) 12 iv.stop hcodepos (by norm_num)
          (hbound iv hiv).2]
      apply String.ext
      simp
    have hnotgt : ¬ ivs.length > 5000 := by omega
    unfold get_location_filters_from_interval_list
    rw [if_neg hnotgt, hmap]
    rfl

/-- Witness for `location_filters_spec` at the single interval chr1:5-10. -/
theorem location_filters_spec_witness :
    get_location_filters_from_interval_list [⟨"chr1", 5, 10⟩]
      = some ("WHERE (" ++ String.intercalate " OR "
          ([(⟨"chr1", 5, 10⟩ : GenInterval)].map spec_location_clause) ++ ")") :=
  (location_filters_spec [⟨"chr1", 5, 10⟩] (by decide) (by decide)).2
    (by decide) (by decide)

/-- C5 (code bug): `CHROM_MAP` maps both `'chr5'` and `'chr6'` to the code
`'6'`, so the mapping is not injective and does not send `'chr5'` to `5`; in
particular the location filters emitted for an interval on chr5 are literally
identical to those emitted for the same interval on chr6. -/
theorem chrom_map_chr5_bug :
    CHROM_MAP.lookup "chr5" = some "6"
    ∧ CHROM_MAP.lookup "chr6" = some "6"
    ∧ CHROM_MAP.lookup "chr5" ≠ some "5"
    ∧ get_location_filters_from_interval_list [⟨"chr5", 100, 200⟩]
        = get_location_filters_from_interval_list [⟨"chr6", 100, 200⟩] := by
  refine ⟨rfl, rfl, by decide, rfl⟩

/-! ## submit_workflow.py : exactly_one_or_die -/

/-- The list `found` after the optional filtering step of
`exactly_one_or_die` (`found = [f for f in found if filter(f)]` when a filter
is given, the input list otherwise). -/
def pyFiltered {α : Type} (result : List α) (fil : Option (α → Bool)) : List α :=
  match fil with
  | some f => result.filter f
  | none => result

/-- `exactly_one_or_die(result, kind, filter=None, describer=None)`: raises
`ValueError` when the (filtered) collection has zero or more than one element,
otherwise returns `found[0]`. -/
def exactly_one_or_die {α : Type} (result : List α) (kind : String)
    (fil : Option (α → Bool)) (describer : Option (α → String)) :
    Except String α :=
  match pyFiltered result fil with
  | [] => Except.error ("Could not find a " ++ kind ++ "!")
  | [x] => Except.ok x
  | _ :: _ :: _ =>
    Except.error
      ("Found multiple " ++ kind ++ "!" ++
        match describer with
        | some d =>
          " : " ++ String.intercalate ", " ((pyFiltered result fil).map d)
        | none => "")

/-- C7: `exactly_one_or_die` returns a value iff exactly one element passes the
(optional) filter, and that value is the unique passing element; with zero or
multiple passing elements it raises `ValueError` and never returns a value. -/
theorem exactly_one_or_die_spec {α : Type} (result : List α) (kind : String)
    (fil : Option (α → Bool)) (describer : Option (α → String)) :
    (∀ x : α, exactly_one_or_die result kind fil describer = Except.ok x
        ↔ pyFiltered result fil = [x])
    ∧ ((pyFiltered result fil).length ≠ 1 →
        ∃ msg, exactly_one_or_die result kind fil describer = Except.error msg) := by
  unfold exactly_one_or_die
  rcases hf : pyFiltered result fil with _ | ⟨y, _ | ⟨z, rest⟩⟩ <;> constructor
  · intro x; simp
  · intro h; exact ⟨_, rfl⟩
  · intro x; simp
  · intro h; simp at h
  · intro x; simp
  · intro h; exact ⟨_, rfl⟩

/-- Witness for `exactly_one_or_die_spec`: filtering `[3, 4]` for evenness
yields exactly `4`. -/
theorem exactly_one_or_die_spec_witness :
    exactly_one_or_die [3, 4] "storage account" (some fun x => x % 2 == 0) none
      = Except.ok 4 :=
  ((exactly_one_or_die_spec [3, 4] "storage account"
      (some fun x => x % 2 == 0) none).1 4).2 (by decide)

/-! ## submit_workflow.py : generate_trigger_json -/

/-- Python `str.strip()`: remove leading and trailing whitespace. -/
def pyStrip (s : String) : String :=
  String.mk (((s.data.dropWhile Char.isWhitespace).reverse.dropWhile
    Char.isWhitespace).reverse)

/-- `generate_trigger_json(workflow_storage_path, inputs_storage_path)`:
the f-string literal (with `inputs_storage_path` replaced by
`f'"{inputs_storage_path}"' if inputs_storage_path else "null"`), stripped.
The one literal of the source is written here as an append of sub-literals
with identical characters. -/
def generate_trigger_json (workflow_storage_path : String)
    (inputs_storage_path : Option String) : String :=
  let ip : String :=
    match inputs_storage_path with
    | some s => if s ≠ "" then "\"" ++ s ++ "\"" else "null"
    | none => "null"
  pyStrip ("\n\x7b" ++
    ("\n  \"WorkflowUrl\": \"" ++ workflow_storage_path
      ++ "\",\n  \"WorkflowInputsUrl\": " ++ ip
      ++ ",\n  \"WorkflowInputsUrls\": null,\n  \"WorkflowOptionsUrl\": null,\n  \"WorkflowDependenciesUrl\": null\n")
    ++ "\x7d\n    ")

/-- A JSON value as far as the trigger file needs: `null` or a string
rendered with surrounding double quotes (no escaping, as in the source). -/
inductive JsonValue where
  | null : JsonValue
  | str : String → JsonValue
deriving Repr, DecidableEq

def renderJsonValue : JsonValue → String
  | JsonValue.null => "null"
  | JsonValue.str s => "\"" ++ s ++ "\""

/-- The text of a JSON object with the given fields, in order, laid out one
field per line with two-space indentation (the trigger-file layout). -/
def renderTriggerObject (fields : List (String × JsonValue)) : String :=
  "\x7b\n"
    ++ String.intercalate ",\n"
        (fields.map fun p => "  \"" ++ p.1 ++ "\": " ++ renderJsonValue p.2)
    ++ "\n\x7d"

theorem pyStrip_sandwich (mid : String) :
    pyStrip ("\n\x7b" ++ mid ++ "\x7d\n    ") = "\x7b" ++ mid ++ "\x7d" := by
  have e1 : ("\n\x7b" ++ mid ++ "\x7d\n    " : String)
      = String.mk ('\n' :: '\x7b' :: (mid.data ++ ['\x7d', '\n', ' ', ' ', ' ', ' '])) := by
    conv_lhs => rw [show mid = String.mk mid.data from rfl]
    rfl
  have e2 : ("\x7b" ++ mid ++ "\x7d" : String)
      = String.mk ('\x7b' :: (mid.data ++ ['\x7d'])) := by
    conv_lhs => rw [show mid = String.mk mid.data from rfl]
    rfl
  rw [e1, e2]
  unfold pyStrip
  congr 1
  have h1 : Char.isWhitespace '\n' = true := rfl
  have h2 : Char.isWhitespace '\x7b' = false := rfl
  have h3 : Char.isWhitespace '\x7d' = false := rfl
  have h4 : Char.isWhitespace ' ' = true := rfl
  simp [List.dropWhile_cons, h1, h2, h3, h4, List.reverse_append,
    List.dropWhile_append]

theorem trigger_layout (w ip : String) :
    pyStrip ("\n\x7b" ++
      ("\n  \"WorkflowUrl\": \"" ++ w ++ "\",\n  \"WorkflowInputsUrl\": " ++ ip
        ++ ",\n  \"WorkflowInputsUrls\": null,\n  \"WorkflowOptionsUrl\": null,\n  \"WorkflowDependenciesUrl\": null\n")
      ++ "\x7d\n    ")
    = "\x7b\n" ++ String.intercalate ",\n"
        ["  \"" ++ "WorkflowUrl" ++ "\": " ++ ("\"" ++ w ++ "\""),
         "  \"" ++ "WorkflowInputsUrl" ++ "\": " ++ ip,
         "  \"" ++ "WorkflowInputsUrls" ++ "\": " ++ "null",
         "  \"" ++ "WorkflowOptionsUrl" ++ "\": " ++ "null",
         "  \"" ++ "WorkflowDependenciesUrl" ++ "\": " ++ "null"] ++ "\n\x7d" := by
  rw [pyStrip_sandwich]
  simp only [String.intercalate, String.intercalate.go]
  rw [show ("\n  \"WorkflowUrl\": \"" : String)
        = "\n" ++ ("  \"" ++ "WorkflowUrl" ++ "\": ") ++ "\"" from rfl,
    show ("\",\n  \"WorkflowInputsUrl\": " : String)
        = "\"" ++ ",\n" ++ ("  \"" ++ "WorkflowInputsUrl" ++ "\": ") from rfl,
    show (",\n  \"WorkflowInputsUrls\": null,\n  \"WorkflowOptionsUrl\": null,\n  \"WorkflowDependenciesUrl\": null\n" : String)
        = ",\n" ++ ("  \"" ++ "WorkflowInputsUrls" ++ "\": ") ++ "null"
          ++ ",\n" ++ ("  \"" ++ "WorkflowOptionsUrl" ++ "\": ") ++ "null"
          ++ ",\n" ++ ("  \"" ++ "WorkflowDependenciesUrl" ++ "\": ") ++ "null"
          ++ "\n" from rfl,
    show ("\x7b\n" : String) = "\x7b" ++ "\n" from rfl,
    show ("\n\x7d" : String) = "\n" ++ "\x7d" from rfl]
  simp only [String.append_assoc]

/-- C4: `generate_trigger_json(w, i)` is the text of a JSON object with
exactly the five keys `WorkflowUrl`, `WorkflowInputsUrl`, `WorkflowInputsUrls`,
`WorkflowOptionsUrl`, `WorkflowDependenciesUrl` in that order, where
`WorkflowUrl` is the string `w`, `WorkflowInputsUrl` is the string `i` when `i`
is non-empty and JSON `null` when `i` is empty or `None`, and the remaining
three fields are JSON `null`. -/
theorem generate_trigger_json_spec (w : String) (i : Option String) :
    generate_trigger_json w i
      = renderTriggerObject
          [("WorkflowUrl", JsonValue.str w),
           ("WorkflowInputsUrl",
             match i with
             | some s => if s ≠ "" then JsonValue.str s else JsonValue.null
             | none => JsonValue.null),
           ("WorkflowInputsUrls", JsonValue.null),
           ("WorkflowOptionsUrl", JsonValue.null),
           ("WorkflowDependenciesUrl", JsonValue.null)] := by
  rcases i with _ | s
  · unfold generate_trigger_json
    simp only [renderTriggerObject, List.map_cons, List.map_nil, renderJsonValue]
    exact trigger_layout w "null"
  · by_cases hs : s = ""
    · subst hs
      unfold generate_trigger_json
      simp only [renderTriggerObject, List.map_cons, List.map_nil, renderJsonValue,
        ne_eq, not_true_eq_false, if_false]
      exact trigger_layout w "null"
    · unfold generate_trigger_json
      have hs' : (s ≠ "") = True := by simp [hs]
      simp only [renderTriggerObject, List.map_cons, List.map_nil, renderJsonValue,
        hs', if_true]
      exact trigger_layout w ("\"" ++ s ++ "\"")

/-! ## create_ranges_cohort_extract_data_table.py : query labels -/

/-- A Python exception as far as the label-processing code can raise one. -/
inductive PyErr where
  | valueError : String → PyErr
  | indexError : PyErr
deriving Repr, DecidableEq

/-- Python `str.split(sep)` for a single-character separator, on char lists. -/
def splitChar (sep : Char) : List Char → List (List Char)
  | [] => [[]]
  | c :: rest =>
    if c = sep then [] :: splitChar sep rest
    else
      match splitChar sep rest with
      | [] => [[c]]
      | h :: t => (c :: h) :: t

/-- `label.split("=", 2)` as used by `make_extract_table`: only elements 0 and
1 of the result are read, and those coincide with the unbounded split. -/
def pySplitEq (s : String) : List String := (splitChar '=' s.data).map String.mk

/-- Python `str.lower()` (ASCII letters; the validation below rejects any
non-ASCII character regardless of case). -/
def pyLower (s : String) : String := String.mk (s.data.map Char.toLower)

/-- `bool(re.match(r"[a-z0-9_-]+$", s))`: `s` is non-empty and contains only
lowercase ASCII letters, digits, underscore and hyphen. -/
def valid_label_part (s : String) : Bool :=
  (s != "") && s.data.all fun c => c.isLower || c.isDigit || c = '_' || c = '-'

/-- `kv[0].strip().lower()` for `kv = query_label.split("=", 2)`. -/
def label_key (label : String) : String :=
  pyLower (pyStrip ((pySplitEq label).headD ""))

/-- `kv[1].strip().lower()` for `kv = query_label.split("=", 2)`. -/
def label_value (label : String) : String :=
  pyLower (pyStrip ((pySplitEq label).getD 1 ""))

/-- Python dict assignment `m[k] = v`: replace the value of an existing key in
place, otherwise append the new pair (insertion order preserved). -/
def upsert (m : List (String × String)) (k v : String) : List (String × String) :=
  match m with
  | [] => [(k, v)]
  | (a, b) :: rest => if a = k then (k, v) :: rest else (a, b) :: upsert rest k v

/-- The `for query_label in query_labels` loop of `make_extract_table`: set
`query_labels_map[key] = value`, then raise `ValueError` unless both the
stripped, lowercased key and value match `[a-z0-9_-]+$`; accessing `kv[1]` of a
label without `'='` raises `IndexError`. -/
def process_query_labels (m0 : List (String × String)) (labels : List String) :
    Except PyErr (List (String × String)) :=
  match labels with
  | [] => Except.ok m0
  | label :: rest =>
    if (pySplitEq label).length < 2 then Except.error PyErr.indexError
    else if (valid_label_part (label_key label)
        && valid_label_part (label_value label)) = false then
      Except.error (PyErr.valueError
        "label key or value did not pass validation--format should be 'key1=val1, key2=val2'")
    else process_query_labels (upsert m0 (label_key label) (label_value label)) rest

/-- The initial `query_labels_map` literal. -/
def initial_labels_map ( output_table_prefix : String) : List (String × String) :=
  [("id", output_table_prefix), ("gvs_tool_name", "gvs_prepare_ranges_callset")]

/-- The label map attached to the BigQuery job configuration by
`make_extract_table`: initial entries, then the user labels (validated), then
`query_labels_map.update({'service': 'gvs', 'team': 'variants', 'managedby': 'prepare_ranges_callset'})`. -/
def build_query_labels_map ( output_table_prefix : String)
    (query_labels : Option (List String)) : Except PyErr (List (String × String)) :=
  match
    (match query_labels with
     | none => Except.ok (initial_labels_map output_table_prefix)
     | some ls =>
       if ls.length = 0 then Except.ok (initial_labels_map output_table_prefix)
       else process_query_labels (initial_labels_map output_table_prefix) ls)
  with
  | Except.error e => Except.error e
  | Except.ok m =>
    Except.ok (upsert (upsert (upsert m "service" "gvs") "team" "variants")
      "managedby" "prepare_ranges_callset")

theorem lookup_upsert (m : List (String × String)) (k v k' : String) :
    (upsert m k v).lookup k' = if k' = k then some v else m.lookup k' := by
  induction m with
  | nil =>
    by_cases h : k' = k
    · simp [upsert, List.lookup, h]
    · have hb : (k' == k) = false := beq_eq_false_iff_ne.2 h
      simp [upsert, List.lookup, hb, h]
  | cons p rest ih =>
    rcases p with ⟨a, b⟩
    by_cases hak : a = k
    · subst hak
      simp only [upsert, if_pos rfl]
      by_cases h : k' = a
      · subst h
        simp [List.lookup]
      · have hb : (k' == a) = false := beq_eq_false_iff_ne.2 h
        simp [List.lookup, hb, h]
    · simp only [upsert, if_neg hak]
      by_cases h : k' = a
      · subst h
        simp [List.lookup, hak]
      · have hb : (k' == a) = false := beq_eq_false_iff_ne.2 h
        simp [List.lookup, hb, ih]

theorem process_ok_of_valid (labels : List String) :
    ∀ m0 : List (String × String),
      (∀ lab ∈ labels, 2 ≤ (pySplitEq lab).length) →
      (∀ lab ∈ labels,
        (valid_label_part (label_key lab) && valid_label_part (label_value lab))
          = true) →
      process_query_labels m0 labels
        = Except.ok (labels.foldl
            (fun acc lab => upsert acc (label_key lab) (label_value lab)) m0) := by
  induction labels with
  | nil => intro m0 _ _; rfl
  | cons lab rest ih =>
    intro m0 hsplit hvalid
    unfold process_query_labels
    rw [if_neg (by have := hsplit lab (by simp); omega),
      if_neg (by simp [hvalid lab (by simp)]),
      ih _ (fun l hl => hsplit l (by simp [hl]))
        (fun l hl => hvalid l (by simp [hl])),
      List.foldl_cons]

theorem process_error_iff (labels : List String) :
    ∀ m0 : List (String × String),
      (∀ lab ∈ labels, 2 ≤ (pySplitEq lab).length) →
      ((∃ msg, process_query_labels m0 labels
          = Except.error (PyErr.valueError msg))
        ↔ ∃ lab ∈ labels,
            (valid_label_part (label_key lab)
              && valid_label_part (label_value lab)) = false) := by
  induction labels with
  | nil =>
    intro m0 _
    simp [process_query_labels]
  | cons lab rest ih =>
    intro m0 hsplit
    unfold process_query_labels
    rw [if_neg (by have := hsplit lab (by simp); omega)]
    by_cases hv : (valid_label_part (label_key lab)
        && valid_label_part (label_value lab)) = false
    · rw [if_pos hv]
      constructor
      · intro _
        exact ⟨lab, by simp, hv⟩
      · intro _
        exact ⟨_, rfl⟩
    · rw [if_neg hv]
      rw [ih _ (fun l hl => hsplit l (by simp [hl]))]
      constructor
      · rintro ⟨l, hl, hlv⟩
        exact ⟨l, by simp [hl], hlv⟩
      · rintro ⟨l, hl, hlv⟩
        rcases List.mem_cons.1 hl with rfl | hl'
        · exact absurd hlv hv
        · exact ⟨l, hl', hlv⟩

theorem lookup_foldl_not_mem (labels : List String) :
    ∀ (m : List (String × String)) (k : String),
      (∀ lab ∈ labels, label_key lab ≠ k) →
      (labels.foldl (fun acc lab => upsert acc (label_key lab) (label_value lab))
          m).lookup k
        = m.lookup k := by
  induction labels with
  | nil => intro m k _; rfl
  | cons lab rest ih =>
    intro m k hne
    rw [List.foldl_cons, ih _ k (fun l hl => hne l (by simp [hl])),
      lookup_upsert, if_neg (fun h => hne lab (by simp) h.symm)]

theorem lookup_foldl_decomp (m : List (String × String)) (pre post : List String)
    (lab : String) (hpost : ∀ lab' ∈ post, label_key lab' ≠ label_key lab) :
    ((pre ++ lab :: post).foldl
        (fun acc l => upsert acc (label_key l) (label_value l)) m).lookup
        (label_key lab)
      = some (label_value lab) := by
  rw [List.foldl_append, List.foldl_cons, lookup_foldl_not_mem post _ _ hpost,
    lookup_upsert, if_pos rfl]

/-- C3 (amended): for query labels each containing at least one `'='`,
`make_extract_table` raises `ValueError` iff some stripped, lowercased key or
value fails the `[a-z0-9_-]+$` validation; when all entries pass, every
stripped, lowercased key/value pair whose key is not one of the
cost-control keys `service`/`team`/`managedby` (overwritten after validation)
and is not repeated by a later query label is present in the label map attached
to the job configuration. -/
theorem make_extract_table_labels_spec (pfx : String) (labels : List String)
    (hne : labels ≠ [])
    (hsplit : ∀ lab ∈ labels, 2 ≤ (pySplitEq lab).length) :
    ((∃ msg, build_query_labels_map pfx (some labels)
        = Except.error (PyErr.valueError msg))
      ↔ ∃ lab ∈ labels,
          (valid_label_part (label_key lab)
            && valid_label_part (label_value lab)) = false)
    ∧ ((∀ lab ∈ labels,
          (valid_label_part (label_key lab)
            && valid_label_part (label_value lab)) = true) →
        ∃ m, build_query_labels_map pfx (some labels) = Except.ok m
          ∧ ∀ pre lab post, labels = pre ++ lab :: post →
              label_key lab ∉ (["service", "team", "managedby"] : List String) →
              (∀ lab' ∈ post, label_key lab' ≠ label_key lab) →
              m.lookup (label_key lab) = some (label_value lab)) := by
  have hlen : ¬ labels.length = 0 := by
    simpa [List.length_eq_zero] using hne
  constructor
  · rw [← process_error_iff labels (initial_labels_map pfx) hsplit]
    unfold build_query_labels_map
    dsimp only
    rw [if_neg hlen]
    rcases hp : process_query_labels (initial_labels_map pfx) labels
      with e | m <;> simp [hp]
  · intro hvalid
    refine ⟨upsert (upsert (upsert
        (labels.foldl (fun acc lab => upsert acc (label_key lab) (label_value lab))
          (initial_labels_map pfx)) "service" "gvs") "team" "variants")
        "managedby" "prepare_ranges_callset", ?_, ?_⟩
    · unfold build_query_labels_map
      dsimp only
      rw [if_neg hlen, process_ok_of_valid labels _ hsplit hvalid]
    · intro pre lab post hdecomp hnotin hnodup
      have h1 : label_key lab ≠ "service" := by
        intro h; exact hnotin (by simp [h])
      have h2 : label_key lab ≠ "team" := by
        intro h; exact hnotin (by simp [h])
      have h3 : label_key lab ≠ "managedby" := by
        intro h; exact hnotin (by simp [h])
      rw [lookup_upsert, if_neg h3, lookup_upsert, if_neg h2,
        lookup_upsert, if_neg h1, hdecomp, lookup_foldl_decomp _ _ _ _ hnodup]

/-- Witness for `make_extract_table_labels_spec` at the single label
`"mykey=MyVal"`. -/
theorem make_extract_table_labels_spec_witness :
    ∃ m, build_query_labels_map "pfx" (some ["mykey=MyVal"]) = Except.ok m
      ∧ ∀ pre lab post, ["mykey=MyVal"] = pre ++ lab :: post →
          label_key lab ∉ (["service", "team", "managedby"] : List String) →
          (∀ lab' ∈ post, label_key lab' ≠ label_key lab) →
          m.lookup (label_key lab) = some (label_value lab) :=
  (make_extract_table_labels_spec "pfx" ["mykey=MyVal"] (by decide)
    (by decide)).2 (by decide)

/-- C3 counterexample: the label `"service=foo"` passes validation, so no
`ValueError` is raised, yet the pair `("service", "foo")` is not present in the
final label map: the post-validation `update` overwrites it with
`("service", "gvs")`. -/
theorem make_extract_table_labels_counterexample :
    (valid_label_part (label_key "service=foo")
      && valid_label_part (label_value "service=foo")) = true
    ∧ build_query_labels_map "pfx" (some ["service=foo"])
        = Except.ok [("id", "pfx"), ("gvs_tool_name", "gvs_prepare_ranges_callset"),
            ("service", "gvs"), ("team", "variants"),
            ("managedby", "prepare_ranges_callset")]
    ∧ ([("id", "pfx"), ("gvs_tool_name", "gvs_prepare_ranges_callset"),
        ("service", "gvs"), ("team", "variants"),
        ("managedby", "prepare_ranges_callset")] : List (String × String)).lookup
          "service" ≠ some "foo" := by
  refine ⟨by decide, rfl, by decide⟩

/-! ## scale_xy_bed_values.py -/

/-- Python `str.startswith(p)`. -/
def pyStartsWith (s p : String) : Bool := s.data.take p.data.length == p.data

/-- Python `str.split('\t')`. -/
def pySplitTab (s : String) : List String := (splitChar '\t' s.data).map String.mk

/-- The value of a non-empty all-digit character list read in base 10. -/
def digitsToNat (l : List Char) : Option Nat :=
  if l ≠ [] && l.all Char.isDigit then
    some (l.foldl (fun acc c => acc * 10 + (c.toNat - 48)) 0)
  else none

/-- Python `int(s)` on a canonical decimal string (an optional minus sign
followed by digits); other inputs raise `ValueError` (`none`). -/
def pyToInt (s : String) : Option Int :=
  match s.data with
  | '-' :: rest => (digitsToNat rest).map fun n => -(n : Int)
  | l => (digitsToNat l).map fun n => (n : Int)

/-- Python `int(q)` for a rational: truncation toward zero. -/
def truncToInt (q : ℚ) : Int := q.num.tdiv q.den

/-- One iteration of the `scale_xy_bed_values` loop: a line starting with
`chrX`/`chrY` has its last tab-separated field `w` replaced by
`str(int(int(w) * scale_factor))`, every other line is copied unchanged.
The scale factors are modelled as rationals (exact arithmetic); `int()` failing
to parse the weight is `none` (`ValueError`). -/
def scale_line (x_scale_factor y_scale_factor : ℚ) (line : String) :
    Option String :=
  if pyStartsWith line "chrX" || pyStartsWith line "chrY" then
    (pyToInt ((pySplitTab line).getLastD "")).map fun w =>
      String.intercalate "\t"
        ((pySplitTab line).dropLast ++
          [toString (truncToInt ((w : ℚ) *
            (if pyStartsWith line "chrX" then x_scale_factor
             else y_scale_factor)))])
  else some line

/-- `scale_xy_bed_values(input, output, x, y)`: calls `sys.exit(1)` before
writing any data line when a scale factor is below 1.0, otherwise transforms
the input lines one by one, in order. -/
def scale_xy_bed_values (x_scale_factor y_scale_factor : ℚ)
    (lines : List String) : Option (List String) :=
  if x_scale_factor < 1 ∨ y_scale_factor < 1 then none
  else lines.mapM (scale_line x_scale_factor y_scale_factor)

/-- The transformed line as the specification describes it, reading the parsed
weight with a default of 0 (the default is never used under the parse
hypothesis of `scale_xy_bed_values_spec`). -/
def spec_scaled_line (sf : ℚ) (line : String) : String :=
  String.intercalate "\t"
    ((pySplitTab line).dropLast ++
      [toString (truncToInt
        (((pyToInt ((pySplitTab line).getLastD "")).getD 0 : ℚ) * sf))])

/-- The per-line transform of the specification: scale `chrX` lines by `x`,
`chrY` lines by `y`, copy everything else. -/
def spec_scale_line (x y : ℚ) (line : String) : String :=
  if pyStartsWith line "chrX" then spec_scaled_line x line
  else if pyStartsWith line "chrY" then spec_scaled_line y line
  else line

/-- C8: with scale factors `x ≥ 1` and `y ≥ 1` (and weights that parse as
integers), `scale_xy_bed_values` outputs one line per input line in order,
scaling the last field of `chrX` lines by `x` and of `chrY` lines by `y`
(truncated toward zero) and copying all other lines; with `x < 1` or `y < 1`
it exits with status 1 and writes no data lines. -/
theorem scale_xy_bed_values_spec (x y : ℚ) (lines : List String)
    (hparse : ∀ line ∈ lines,
      (pyStartsWith line "chrX" || pyStartsWith line "chrY") = true →
      ∃ w : Int, pyToInt ((pySplitTab line).getLastD "") = some w) :
    (x < 1 ∨ y < 1 → scale_xy_bed_values x y lines = none)
    ∧ (1 ≤ x → 1 ≤ y →
        scale_xy_bed_values x y lines
          = some (lines.map (spec_scale_line x y))) := by
  constructor
  · intro h
    unfold scale_xy_bed_values
    rw [if_pos h]
  · intro hx hy
    unfold scale_xy_bed_values
    rw [if_neg (by rintro (h | h) <;> linarith)]
    apply mapM_eq_map_of_forall
    intro line hline
    by_cases hX : pyStartsWith line "chrX" = true
    · obtain ⟨w, hw⟩ := hparse line hline (by simp [hX])
      unfold scale_line spec_scale_line spec_scaled_line
      rw [if_pos (by simp [hX]), if_pos hX, if_pos hX, hw]
      simp
    · by_cases hY : pyStartsWith line "chrY" = true
      · obtain ⟨w, hw⟩ := hparse line hline (by simp [hY])
        unfold scale_line spec_scale_line spec_scaled_line
        rw [if_pos (by simp [hY]), if_neg hX, if_neg hX, if_pos hY, hw]
        simp
      · unfold scale_line spec_scale_line
        rw [if_neg (by simp [hX, hY]), if_neg hX, if_neg hY]

/-- Witness for `scale_xy_bed_values_spec`: scale `chrX` weights by `3/2`. -/
theorem scale_xy_bed_values_spec_witness :
    scale_xy_bed_values (3 / 2) 2
        ["chr1\t10\t20\t5", "chrX\t10\t20\t7"]
      = some (["chr1\t10\t20\t5", "chrX\t10\t20\t7"].map
          (spec_scale_line (3 / 2) 2)) :=
  (scale_xy_bed_values_spec (3 / 2) 2 ["chr1\t10\t20\t5", "chrX\t10\t20\t7"]
    (by
      intro line hline hst
      rcases List.mem_cons.1 hline with rfl | hline'
      · exact absurd hst (by decide)
      · rcases List.mem_cons.1 hline' with rfl | h
        · exact ⟨7, rfl⟩
        · simp at h)).2 (by norm_num) (by norm_num)

/-! ## filter_interval_list_chromosomes.py -/

/-- A regex word character (`\w`), ASCII reading. -/
def isWordChar (c : Char) : Bool := c.isAlpha || c.isDigit || c = '_'

/-- Does `\b c \b` match at the start of `l`, where `prev` is the character
immediately before this position (`none` at the start of the line)?  This is
the compiled semantics of the `\bc\b` branch for a chromosome name `c` made of
word characters. -/
def matchBounded (c : List Char) (prev : Option Char) (l : List Char) : Bool :=
  (match prev with
   | none => true
   | some p => !isWordChar p)
  && (l.take c.length == c)
  && (match l.drop c.length with
      | [] => true
      | ch :: _ => !isWordChar ch)

/-- Does `c_` match at the start of `l`? -/
def matchUnderscore (c : List Char) (l : List Char) : Bool :=
  l.take (c.length + 1) == c ++ ['_']

/-- `re.search` scan of the pattern `rf"\b{c}\b|{c}_"`: try each position from
left to right, tracking the previous character for the word boundary. -/
def searchFrom (c : List Char) (prev : Option Char) : List Char → Bool
  | [] => matchBounded c prev [] || matchUnderscore c []
  | ch :: rest =>
    matchBounded c prev (ch :: rest) || matchUnderscore c (ch :: rest)
      || searchFrom c (some ch) rest

/-- `re.search(rf"\b{c}\b|{c}_", line)` succeeds somewhere in the line. -/
def chromPatternHit (line c : List Char) : Bool := searchFrom c none line

/-- The loop body of `filter_chromosomes`: keep the line when it matches
`^@HD|^@PG` or any chromosome pattern. -/
def keepLine (chromosomes : List String) (line : String) : Bool :=
  pyStartsWith line "@HD" || pyStartsWith line "@PG"
    || chromosomes.any fun c => chromPatternHit line.data c.data

/-- `filter_chromosomes(output, full_interval_list, *chromosomes)`: write
exactly the kept lines, in input order. -/
def filter_chromosomes (chromosomes : List String) (lines : List String) :
    List String :=
  lines.filter (keepLine chromosomes)

/-- The keep-predicate as the specification states it: the line begins with
`@HD` or `@PG`, or contains one of the chromosome names surrounded by word
boundaries or immediately followed by an underscore. -/
def specKeepLine (chromosomes : List String) (line : String) : Prop :=
  (∃ rest, line.data = "@HD".data ++ rest)
  ∨ (∃ rest, line.data = "@PG".data ++ rest)
  ∨ ∃ c ∈ chromosomes, ∃ pre post : List Char,
      line.data = pre ++ c.data ++ post
      ∧ ((∀ ch ∈ pre.getLast?, isWordChar ch = false)
            ∧ (∀ ch ∈ post.head?, isWordChar ch = false)
          ∨ post.head? = some '_')

theorem take_eq_iff_exists (l p : List Char) :
    (l.take p.length == p) = true ↔ ∃ post, l = p ++ post := by
  rw [beq_iff_eq]
  constructor
  · intro h
    exact ⟨l.drop p.length, by conv_lhs => rw [← List.take_append_drop p.length l, h]⟩
  · rintro ⟨post, rfl⟩
    exact List.take_left p post

theorem pyStartsWith_iff (s p : String) :
    pyStartsWith s p = true ↔ ∃ rest, s.data = p.data ++ rest :=
  take_eq_iff_exists s.data p.data

theorem matchBounded_iff (c : List Char) (prev : Option Char) (l : List Char) :
    matchBounded c prev l = true
      ↔ (∀ p ∈ prev, isWordChar p = false)
        ∧ ∃ post, l = c ++ post ∧ (∀ ch ∈ post.head?, isWordChar ch = false) := by
  unfold matchBounded
  simp only [Bool.and_eq_true]
  constructor
  · rintro ⟨⟨hprev, htake⟩, hafter⟩
    refine ⟨?_, ?_⟩
    · intro p hp
      cases prev with
      | none => simp at hp
      | some q =>
        obtain rfl : q = p := by simpa using hp
        simpa using hprev
    · obtain ⟨post, rfl⟩ := (take_eq_iff_exists l c).1 htake
      refine ⟨post, rfl, ?_⟩
      intro ch hch
      rw [List.drop_left] at hafter
      cases post with
      | nil => simp at hch
      | cons a rest =>
        obtain rfl : a = ch := by simpa using hch
        simpa using hafter
  · rintro ⟨hprev, post, rfl, hpost⟩
    refine ⟨⟨?_, (take_eq_iff_exists _ c).2 ⟨post, rfl⟩⟩, ?_⟩
    · cases prev with
      | none => rfl
      | some q => simpa using hprev q rfl
    · rw [List.drop_left]
      cases post with
      | nil => rfl
      | cons a rest => simpa using hpost a rfl

theorem matchUnderscore_iff (c l : List Char) :
    matchUnderscore c l = true ↔ ∃ post, l = c ++ '_' :: post := by
  unfold matchUnderscore
  have h1 : c.length + 1 = (c ++ ['_']).length := by simp
  rw [h1, take_eq_iff_exists l (c ++ ['_'])]
  constructor
  · rintro ⟨post, rfl⟩
    exact ⟨post, by simp⟩
  · rintro ⟨post, rfl⟩
    exact ⟨post, by simp⟩

theorem searchFrom_iff (c : List Char) (hc : c ≠ []) :
    ∀ (l ctx : List Char),
      searchFrom c ctx.getLast? l = true
        ↔ ∃ pre post, l = pre ++ c ++ post
            ∧ ((∀ ch ∈ (ctx ++ pre).getLast?, isWordChar ch = false)
                  ∧ (∀ ch ∈ post.head?, isWordChar ch = false)
                ∨ post.head? = some '_') := by
  intro l
  induction l with
  | nil =>
    intro ctx
    constructor
    · intro h
      exfalso
      unfold searchFrom at h
      rw [Bool.or_eq_true] at h
      rcases h with h | h
      · obtain ⟨_, post, hpost, _⟩ := (matchBounded_iff c _ []).1 h
        have := congrArg List.length hpost
        simp at this
        exact hc (List.length_eq_zero.1 (by omega))
      · obtain ⟨post, hpost⟩ := (matchUnderscore_iff c []).1 h
        have := congrArg List.length hpost
        simp at this
        omega
    · rintro ⟨pre, post, hl, _⟩
      have := congrArg List.length hl
      simp at this
      exact absurd (List.length_eq_zero.1 (by omega)) hc
  | cons ch rest ih =>
    intro ctx
    unfold searchFrom
    rw [Bool.or_eq_true, Bool.or_eq_true]
    have hprev : (some ch : Option Char) = (ctx ++ [ch]).getLast? := by
      rw [List.getLast?_concat]
    constructor
    · rintro ((h | h) | h)
      · obtain ⟨hctx, post, hl, hpost⟩ := (matchBounded_iff c _ _).1 h
        refine ⟨[], post, by simpa using hl, Or.inl ⟨?_, hpost⟩⟩
        intro ch' hch'
        exact hctx ch' (by simpa using hch')
      · obtain ⟨post, hl⟩ := (matchUnderscore_iff c _).1 h
        exact ⟨[], '_' :: post, by simpa using hl, Or.inr rfl⟩
      · rw [hprev] at h
        obtain ⟨pre, post, hl, hcond⟩ := (ih (ctx ++ [ch])).1 h
        refine ⟨ch :: pre, post, by simp [hl], ?_⟩
        have he : ctx ++ ch :: pre = (ctx ++ [ch]) ++ pre := by simp
        rw [he]
        exact hcond
    · rintro ⟨pre, post, hl, hcond⟩
      cases pre with
      | nil =>
        simp only [List.nil_append] at hl
        rcases hcond with ⟨hctxCond, hpostCond⟩ | hunder
        · left; left
          apply (matchBounded_iff c _ _).2
          refine ⟨?_, post, hl, hpostCond⟩
          intro p hp
          exact hctxCond p (by simpa using hp)
        · left; right
          apply (matchUnderscore_iff c _).2
          cases post with
          | nil => simp at hunder
          | cons a post' =>
            obtain rfl : a = '_' := by simpa using hunder
            exact ⟨post', hl⟩
      | cons p0 pre' =>
        right
        rw [hprev]
        apply (ih (ctx ++ [ch])).2
        have hl' : ch :: rest = p0 :: (pre' ++ c ++ post) := by simpa using hl
        injection hl' with h1 h2
        subst h1
        refine ⟨pre', post, h2, ?_⟩
        have he : (ctx ++ [ch]) ++ pre' = ctx ++ ch :: pre' := by simp
        rw [he]
        exact hcond

theorem chromPatternHit_iff (line c : List Char) (hc : c ≠ []) :
    chromPatternHit line c = true
      ↔ ∃ pre post, line = pre ++ c ++ post
          ∧ ((∀ ch ∈ pre.getLast?, isWordChar ch = false)
                ∧ (∀ ch ∈ post.head?, isWordChar ch = false)
              ∨ post.head? = some '_') := by
  have h := searchFrom_iff c hc line []
  simpa using h

/-- C9: `filter_chromosomes` writes exactly those input lines, in input order,
that begin with `@HD` or `@PG` or contain one of the chromosome names
surrounded by word boundaries or immediately followed by an underscore (for
chromosome names that are non-empty strings of word characters). -/
theorem filter_chromosomes_spec (chromosomes lines : List String)
    (hcs : ∀ c ∈ chromosomes, c.data ≠ [] ∧ ∀ ch ∈ c.data, isWordChar ch = true) :
    filter_chromosomes chromosomes lines
      = lines.filter (fun line => keepLine chromosomes line)
    ∧ ∀ line : String,
        keepLine chromosomes line = true ↔ specKeepLine chromosomes line := by
  refine ⟨rfl, ?_⟩
  intro line
  unfold keepLine specKeepLine
  rw [Bool.or_eq_true, Bool.or_eq_true, List.any_eq_true]
  constructor
  · rintro ((h | h) | ⟨c, hcmem, hhit⟩)
    · exact Or.inl ((pyStartsWith_iff line "@HD").1 h)
    · exact Or.inr (Or.inl ((pyStartsWith_iff line "@PG").1 h))
    · exact Or.inr (Or.inr ⟨c, hcmem,
        (chromPatternHit_iff line.data c.data (hcs c hcmem).1).1 hhit⟩)
  · rintro (h | h | ⟨c, hcmem, hdec⟩)
    · exact Or.inl (Or.inl ((pyStartsWith_iff line "@HD").2 h))
    · exact Or.inl (Or.inr ((pyStartsWith_iff line "@PG").2 h))
    · exact Or.inr ⟨c, hcmem,
        (chromPatternHit_iff line.data c.data (hcs c hcmem).1).2 hdec⟩

/-- Witness for `filter_chromosomes_spec` at chromosome `chr1`: a `chr1` data
line is kept and the equivalence is inhabited at a concrete line. -/
theorem filter_chromosomes_spec_witness :
    keepLine ["chr1"] "chr1\t100\t200\t+\tx" = true
      ↔ specKeepLine ["chr1"] "chr1\t100\t200\t+\tx" :=
  (filter_chromosomes_spec ["chr1"] [] (by decide)).2 "chr1\t100\t200\t+\tx"

/-! ## io_commons.py : ndarray TSV write/read round trip

`io_consts` is repository code not under src/; its constants are modelled from
the spec and the uses in io_commons.py: comment character `'@'`, delimiter
`'\t'`, key-value separator `':'`, SAM comment tag `"CO"`, header keys
`"shape"` and `"dtype"`, column prefix `"VALUE_"`.  Cell serialization is
delegated by the source to pandas (`to_csv`/`read_csv`); it is modelled by a
pair of functions `render`/`parse` assumed inverse on cells. -/

theorem isDigit_not_ws (ch : Char) (h : ch.isDigit = true) :
    ch.isWhitespace = false := by
  have h1 : ch ≠ ' ' := by intro hh; rw [hh] at h; exact absurd h (by decide)
  have h2 : ch ≠ '\t' := by intro hh; rw [hh] at h; exact absurd h (by decide)
  have h3 : ch ≠ '\r' := by intro hh; rw [hh] at h; exact absurd h (by decide)
  have h4 : ch ≠ '\n' := by intro hh; rw [hh] at h; exact absurd h (by decide)
  simp [Char.isWhitespace, h1, h2, h3, h4]

